import Mathlib

/-!
Shallow embedding of the IOtech GPIB device driver module (src of the
repository Interfaces_IOtech, a single Python 2 module).

The driver is modelled as pure functions over explicit transport oracles:
a write transport of type String to Except String Unit (the GPIB write
primitive, which may fail with a gpib error carrying a message) and a read
result of type Except String String (the GPIB read primitive).  Python
exceptions that can escape the modelled methods are represented by PyErr.
Python str values are modelled by String, Python int by Int or Nat where
the bound is clear, and Python float (only produced here by float() on a
short numeric string) by the rationals.
-/

namespace IOtech

/-- Python exceptions that the modelled code can raise or handle.
UnboundLocalError arises when a function-local name is read before any of
its assignments ran; NameError when a global name is not defined at all. -/
inductive PyErr where
  | gpibError (msg : String)
  | unboundLocalError
  | nameError
  | valueError
  | typeError
  | indexError
  | syntaxError
deriving DecidableEq

instance exceptDecEq {e a : Type} [DecidableEq e] [DecidableEq a] :
    DecidableEq (Except e a) := fun x y =>
  match x, y with
  | .error v, .error w =>
      if h : v = w then .isTrue (congrArg Except.error h)
      else .isFalse (fun hc => h (Except.error.inj hc))
  | .error _, .ok _ => .isFalse (fun hc => Except.noConfusion hc)
  | .ok _, .error _ => .isFalse (fun hc => Except.noConfusion hc)
  | .ok v, .ok w =>
      if h : v = w then .isTrue (congrArg Except.ok h)
      else .isFalse (fun hc => h (Except.ok.inj hc))

/-- The whitespace characters recognised by Python str.strip and str.split. -/
def isPySpace (c : Char) : Bool :=
  c == ' ' || c == '\t' || c == '\n' || c == '\r' || c == '\x0b' || c == '\x0c'

/-- Python str.strip on a character list. -/
def stripList (l : List Char) : List Char :=
  ((l.dropWhile isPySpace).reverse.dropWhile isPySpace).reverse

/-- Python str.strip. -/
def pyStrip (s : String) : String := ⟨stripList s.data⟩

/-- ASCII letter test, as Python str.isalpha on the default locale. -/
def pyIsAlpha (c : Char) : Bool :=
  decide ((65 ≤ c.toNat ∧ c.toNat ≤ 90) ∨ (97 ≤ c.toNat ∧ c.toNat ≤ 122))

/-- ASCII digit test, as Python str.isdigit. -/
def pyIsDigit (c : Char) : Bool :=
  decide (48 ≤ c.toNat ∧ c.toNat ≤ 57)

/-- Numeric value of a run of decimal digit characters. -/
def digitsVal (l : List Char) : Nat :=
  l.foldl (fun a c => 10 * a + (c.toNat - 48)) 0

/-- Python int() applied to a string: strip, optional sign, then a nonempty
run of decimal digits; anything else (including the empty string and
strings containing a dot) raises ValueError, modelled as none. -/
def pyInt (s : String) : Option Int :=
  let l := (pyStrip s).data
  let sl : Bool × List Char :=
    match l with
    | '-' :: rest => (true, rest)
    | '+' :: rest => (false, rest)
    | _ => (false, l)
  if sl.2 ≠ [] ∧ sl.2.all pyIsDigit then
    some ((if sl.1 then -1 else 1) * (digitsVal sl.2 : Int))
  else none

/-- Python float() applied to a string: strip, optional sign, an optional
integer part, an optional dot and fraction part, with at least one digit
somewhere; the value is returned as a rational.  Exponent forms and the
special words are not produced by this driver and are not modelled. -/
def pyFloat (s : String) : Option ℚ :=
  let l := (pyStrip s).data
  let sl : Bool × List Char :=
    match l with
    | '-' :: rest => (true, rest)
    | '+' :: rest => (false, rest)
    | _ => (false, l)
  let ip := sl.2.takeWhile pyIsDigit
  let rest := sl.2.drop ip.length
  match rest with
  | [] =>
      if ip = [] then none
      else some ((if sl.1 then -1 else 1) * (digitsVal ip : ℚ))
  | '.' :: fp =>
      if fp.all pyIsDigit ∧ ¬(ip = [] ∧ fp = []) then
        some ((if sl.1 then -1 else 1) *
          ((digitsVal ip : ℚ) + (digitsVal fp : ℚ) / (10 : ℚ) ^ fp.length))
      else none
  | _ => none

/-- Decimal digits of a natural number, most significant first, computed
with explicit fuel so that the definition is structurally recursive. -/
def natDigitsAux : Nat → Nat → List Char
  | 0, _ => []
  | fuel + 1, n =>
      if n < 10 then [Nat.digitChar n]
      else natDigitsAux fuel (n / 10) ++ [Nat.digitChar (n % 10)]

/-- Python str() of an int, as a character list. -/
def pyStrL (i : Int) : List Char :=
  if i < 0 then '-' :: natDigitsAux (i.natAbs + 1) i.natAbs
  else natDigitsAux (i.toNat + 1) i.toNat

/-- The possible argument shapes of IOtech.Write: a Python list of command
mnemonics, or a single string. -/
inductive CmdInput where
  | str (s : String)
  | list (l : List String)
deriving DecidableEq

/-- Python str.split() with no argument: split on runs of whitespace,
dropping empty fields.  Accumulator-based helper. -/
def splitGo : List Char → List Char → List (List Char)
  | [], acc => if acc = [] then [] else [acc.reverse]
  | c :: cs, acc =>
      if isPySpace c then
        if acc = [] then splitGo cs [] else acc.reverse :: splitGo cs []
      else splitGo cs (c :: acc)

/-- Python str.split() with no argument, on a character list. -/
def splitWS (l : List Char) : List (List Char) := splitGo l []

/-- The loop of IOtech.Write that joins a list of mnemonics, appending the
execute terminator X after every nonempty command. -/
def joinX (cmds : List (List Char)) : List Char :=
  cmds.foldl (fun acc c => if c = [] then acc else acc ++ c ++ ['X']) []

/-- The command-string assembly of IOtech.Write (everything before the
final carriage return is appended and the transport is invoked), as a
character list.  A Python list argument always raises UnboundLocalError:
the local name for the split command list is only assigned on the
space-separated branch, yet the join loop reads it for every list
argument.  For a string argument without a space, the source checks
whether the last character equals the one-character string X, or else
whether the second-to-last character equals the two-character string
containing X and a carriage return; indexing from the end raises
IndexError on strings that are too short. -/
def commandChars : CmdInput → Except PyErr (List Char)
  | .list _ => .error .unboundLocalError
  | .str s =>
      let cl := s.data
      if ' ' ∈ cl then .ok (joinX (splitWS cl))
      else
        match cl.getLast? with
        | none => .error .indexError
        | some c1 =>
            if c1 = 'X' then .ok (stripCR cl)
            else if h2 : cl.length < 2 then .error .indexError
            else if [cl.get ⟨cl.length - 2, by omega⟩] = ['X', '\r'] then
              .ok (stripCR cl)
            else .ok (cl ++ ['X'])
where
  /-- The redundant carriage-return removal inside the pass-through branch
  of IOtech.Write. -/
  stripCR (cl : List Char) : List Char :=
    if cl.getLast? = some '\r' then cl.dropLast else cl

/-- The full frame transmitted by IOtech.Write: the assembled command
string followed by one carriage return. -/
def frame (inp : CmdInput) : Except PyErr String :=
  (commandChars inp).map (fun cs => ⟨cs ++ ['\r']⟩)

/-- IOtech.Write: assemble the command string, transmit it with a trailing
carriage return, return true on success; a gpib transport error is caught,
printed and turned into a false return. -/
def Write (t : String → Except String Unit) (inp : CmdInput) : Except PyErr Bool :=
  match commandChars inp with
  | .error e => .error e
  | .ok cs =>
      match t ⟨cs ++ ['\r']⟩ with
      | .ok _ => .ok true
      | .error _ => .ok false

/-- IOtech.Read: one transport read; a gpib transport error is caught,
printed, and converted into an error-tagged string return. -/
def Read (rt : Except String String) : String :=
  match rt with
  | .ok r => r
  | .error details => "Error: " ++ details

/-- IOtech.Ask: a Write followed by a Read, returning the stripped
response on success and Python None (modelled as none) when the Write
returned false. -/
def Ask (t : String → Except String Unit) (rt : Except String String)
    (inp : CmdInput) : Except PyErr (Option String) :=
  match Write t inp with
  | .error e => .error e
  | .ok true => .ok (some (pyStrip (Read rt)))
  | .ok false => .ok none

/-- IOtech.configure: send the configure command for the given index. -/
def configure (t : String → Except String Unit) (configuration : Int) :
    Except PyErr Bool :=
  Write t (.str ⟨'C' :: pyStrL configuration⟩)

/-- The class-level port direction table ports_out, transcribed literally:
for each configuration index the direction flag of each port. -/
def ports_out : List (Nat × List (Nat × Bool)) :=
  [(0, [(1, false), (2, false), (3, false), (4, false), (5, false)]),
   (1, [(1, true ), (2, false), (3, false), (4, false), (5, false)]),
   (2, [(1, true ), (2, true ), (3, false), (4, false), (5, false)]),
   (3, [(1, true ), (2, true ), (3, true ), (4, false), (5, false)]),
   (4, [(1, true ), (2, true ), (3, true ), (4, true ), (5, false)]),
   (5, [(1, true ), (2, true ), (3, true ), (4, true ), (5, true )])]

/-- A numeric status value: Python float for the Version entry, int for
every command-letter entry. -/
inductive PyNum where
  | int (n : Int)
  | float (q : ℚ)
deriving DecidableEq

/-- The one-character string holding a given character. -/
def chStr (c : Char) : String := ⟨[c]⟩

/-- Python dict lookup on an association list. -/
def lookupA {α β : Type} [DecidableEq α] (k : α) : List (α × β) → Option β
  | [] => none
  | p :: t => if p.1 = k then some p.2 else lookupA k t

/-- Python dict assignment on an association list: overwrite the value of
an existing key in place, otherwise append the new binding. -/
def dictSet (d : List (String × String)) (k v : String) :
    List (String × String) :=
  if (lookupA k d).isSome then
    d.map (fun p => if p.1 = k then (k, v) else p)
  else d ++ [(k, v)]

/-- The loop state of the status parser in IOtech.get_status. -/
structure StatusState where
  responses : List (String × String)
  in_command : Bool
  command : Char
  value : String

/-- One iteration of the character loop of IOtech.get_status. -/
def statusStep (st : StatusState) (c : Char) : StatusState :=
  let st1 :=
    if st.in_command = false ∧ pyIsAlpha c = true then
      { st with command := c, in_command := true, value := "" }
    else st
  if st1.in_command = true then
    if pyIsDigit c = true ∨ c = '.' then
      { st1 with value := st1.value.push c }
    else if c ≠ '\r' then
      { responses := dictSet st1.responses (chStr st1.command) st1.value,
        in_command := st1.in_command, command := c, value := "" }
    else st1
  else st1

/-- The parsing stage of IOtech.get_status: record the three-character
version prefix, then run the character loop over the rest of the reply,
producing the raw string-valued response dictionary. -/
def parse_status (status : String) : List (String × String) :=
  let version : String := ⟨status.data.take 3⟩
  let init : StatusState :=
    { responses := [("Version", version)], in_command := false,
      command := '\x00', value := "" }
  ((status.data.drop 3).foldl statusStep init).responses

/-- The conversion of one raw status entry in IOtech.get_status: float()
for the Version key, int() for everything else; a failed conversion raises
ValueError. -/
def convEntry (p : String × String) : Except PyErr (String × PyNum) :=
  if p.1 = "Version" then
    match pyFloat p.2 with
    | some q => .ok (p.1, .float q)
    | none => .error .valueError
  else
    match pyInt p.2 with
    | some n => .ok (p.1, .int n)
    | none => .error .valueError

/-- The conversion loop of IOtech.get_status over the whole raw response
dictionary. -/
def convertAll : List (String × String) → Except PyErr (List (String × PyNum))
  | [] => .ok []
  | p :: rest =>
      match convEntry p with
      | .error e => .error e
      | .ok q =>
          match convertAll rest with
          | .error e => .error e
          | .ok qs => .ok (q :: qs)

/-- Parsing plus conversion: what IOtech.get_status does with the reply
text once the status query has succeeded. -/
def status_result (status : String) : Except PyErr (List (String × PyNum)) :=
  convertAll (parse_status status)

/-- IOtech.get_status: query with U0, then parse and convert the reply.
When Ask returns None the subscript of the version prefix raises
TypeError on the NoneType value. -/
def get_status (t : String → Except String Unit) (rt : Except String String) :
    Except PyErr (List (String × PyNum)) :=
  match Ask t rt (.str "U0") with
  | .error e => .error e
  | .ok none => .error .typeError
  | .ok (some status) => status_result status

/-- IOtech.get_bit_state: query the status of one bit and convert the
response string itself (not its numeric value) with bool(): None and the
empty string are falsy, every other string is truthy. -/
def get_bit_state (t : String → Except String Unit) (rt : Except String String)
    (bit : Int) : Except PyErr Bool :=
  (Ask t rt (.str ⟨'U' :: pyStrL bit⟩)).map (fun r =>
    match r with
    | none => false
    | some s => !s.isEmpty)

/-- Value of one hexadecimal digit character, upper or lower case. -/
def hexDigit (c : Char) : Option Nat :=
  if 48 ≤ c.toNat ∧ c.toNat ≤ 57 then some (c.toNat - 48)
  else if 97 ≤ c.toNat ∧ c.toNat ≤ 102 then some (c.toNat - 87)
  else if 65 ≤ c.toNat ∧ c.toNat ≤ 70 then some (c.toNat - 55)
  else none

/-- Python eval of the literal 0x followed by the given characters: the
value of a nonempty hex-digit string, otherwise a SyntaxError (none). -/
def pyHex (l : List Char) : Option Nat :=
  if l = [] then none
  else
    l.foldl
      (fun acc c =>
        match acc, hexDigit c with
        | some a, some d => some (16 * a + d)
        | _, _ => none)
      (some 0)

/-- The per-port grouping of IOtech.get_all_bits: for each port index in
range(5), mask out the 8 bits of that port and shift them down, keyed by
port + 1. -/
def portsOf (response : Nat) : List (Nat × Nat) :=
  (List.range 5).map (fun port =>
    (port + 1, (response &&& (255 <<< (port * 8))) >>> (port * 8)))

/-- Modelled from the spec: the external module Math (not part of this
repository) supplies decimal_to_binary, which renders a value as a
fixed-width binary string, optionally grouped, blank-separated, into
chunks of a given number of bits.  Only the untyped shape matters here:
no claim depends on the formatted branch. -/
def decimal_to_binary (n width groups : Nat) : List Char :=
  let bits := (List.range width).map
    (fun i => if n.testBit (width - 1 - i) then '1' else '0')
  if groups = 0 then bits
  else ((bits.toChunks groups).intersperse [' ']).flatten

/-- The result of IOtech.get_all_bits: a raw 40-bit integer, a per-port
dictionary, or a formatted binary string. -/
inductive BitsResult where
  | raw (n : Nat)
  | ports (m : List (Nat × Nat))
  | binary (s : List Char)
deriving DecidableEq

/-- IOtech.get_all_bits: read, strip, evaluate the response as a hex
literal, then return it raw, grouped per port, or formatted. -/
def get_all_bits (reply : String) (formatted : Bool) (groups : Nat) :
    Except PyErr BitsResult :=
  match pyHex (pyStrip reply).data with
  | none => .error .syntaxError
  | some response =>
      if formatted then .ok (.binary (decimal_to_binary response 40 groups))
      else
        if groups ≠ 0 then .ok (.ports (portsOf response))
        else .ok (.raw response)

/-- IOtech.write_port: three Write calls in a strict sequence, with the
boolean results ignored; the frames transmitted are collected in order. -/
def write_port (port value : Int) : Except PyErr (List String) := do
  let f1 ← frame (.str ⟨'P' :: (pyStrL port ++ [' ', 'F', '3'])⟩)
  let f2 ← frame (.str ⟨'D' :: (pyStrL value ++ ['Z'])⟩)
  let f3 ← frame (.str "P0 F0")
  pure [f1, f2, f3]

/-- IOtech.set_bit: computes the owning port, then reads the global name
get_port_directions, which is not defined anywhere in the module (nor is
IOtechWrite), so every call raises NameError. -/
def set_bit (bit : Int) : Except PyErr Bool :=
  let _port := (bit - 1).fdiv 8 + 1
  .error .nameError

/-- IOtech.clr_bit: same undefined helper names as set_bit, so every call
raises NameError. -/
def clr_bit (bit : Int) : Except PyErr Bool :=
  let _port := (bit - 1).fdiv 8 + 1
  .error .nameError

/-- IOtech.pulse_bit: read the state of the bit, pre-position it if it is
not already at the pre-pulse level, then drive it to the pulse level and
back; the sleeps between steps carry no state and are omitted. -/
def pulse_bit (t : String → Except String Unit) (rt : Except String String)
    (bit : Int) (low : Bool) : Except PyErr Unit := do
  if low then
    let st ← get_bit_state t rt bit
    if !st then
      let _ ← set_bit bit
      pure ()
    let _ ← clr_bit bit
    let _ ← set_bit bit
    pure ()
  else
    let st ← get_bit_state t rt bit
    if st then
      let _ ← clr_bit bit
      pure ()
    let _ ← set_bit bit
    let _ ← clr_bit bit
    pure ()

/-! Helper lemmas. -/

lemma data_mk (l : List Char) : (⟨l⟩ : String).data = l := rfl

lemma chStr_ne (a b : Char) (h : a ≠ b) : chStr a ≠ chStr b := by
  intro hc
  exact h (List.head_eq_of_cons_eq (congrArg String.data hc))

lemma chStr_ne_Version (c : Char) : chStr c ≠ "Version" := by
  intro hc
  have h2 := congrArg (fun s => s.data.length) hc
  simp [chStr] at h2

lemma lookup_map_set_ne (d : List (String × String)) (k k2 v : String)
    (h : k ≠ k2) :
    lookupA k (d.map (fun p => if p.1 = k2 then (k2, v) else p))
      = lookupA k d := by
  induction d with
  | nil => rfl
  | cons p t ih =>
      by_cases hp : p.1 = k2
      · simp only [List.map_cons, if_pos hp, lookupA]
        rw [if_neg (fun e => h (e.symm)), if_neg (fun e => h ((hp ▸ e).symm))]
        exact ih
      · simp only [List.map_cons, if_neg hp, lookupA]
        by_cases hk : p.1 = k
        · rw [if_pos hk, if_pos hk]
        · rw [if_neg hk, if_neg hk]
          exact ih

lemma lookup_append_ne (d : List (String × String)) (k k2 v : String)
    (h : k ≠ k2) :
    lookupA k (d ++ [(k2, v)]) = lookupA k d := by
  induction d with
  | nil =>
      simp only [List.nil_append, lookupA, if_neg (fun e : k2 = k => h e.symm)]
  | cons p t ih =>
      simp only [List.cons_append, lookupA]
      by_cases hk : p.1 = k
      · rw [if_pos hk, if_pos hk]
      · rw [if_neg hk, if_neg hk]
        exact ih

lemma lookup_dictSet_ne (d : List (String × String)) (k k2 v : String)
    (h : k ≠ k2) :
    lookupA k (dictSet d k2 v) = lookupA k d := by
  unfold dictSet
  split
  · exact lookup_map_set_ne d k k2 v h
  · exact lookup_append_ne d k k2 v h

lemma lookup_dictSet_self (d : List (String × String)) (k v : String) :
    lookupA k (dictSet d k v) = some v := by
  unfold dictSet
  split
  case isTrue h =>
    induction d with
    | nil => simp [lookupA] at h
    | cons p t ih =>
        by_cases hp : p.1 = k
        · simp [List.map_cons, if_pos hp, lookupA]
        · simp only [List.map_cons, if_neg hp, lookupA, if_neg hp]
          apply ih
          simpa [lookupA, if_neg hp] using h
  case isFalse h =>
    induction d with
    | nil => simp [lookupA]
    | cons p t ih =>
        by_cases hp : p.1 = k
        · exact absurd (by simp [lookupA, if_pos hp]) h
        · simp only [List.cons_append, lookupA, if_neg hp]
          apply ih
          simpa [lookupA, if_neg hp] using h

lemma pyIsAlpha_not_digit {c : Char} (h : pyIsAlpha c = true) :
    pyIsDigit c = false := by
  simp only [pyIsAlpha, decide_eq_true_eq] at h
  simp only [pyIsDigit, decide_eq_false_iff_not]
  omega

lemma pyIsAlpha_ne_dot {c : Char} (h : pyIsAlpha c = true) : c ≠ '.' := by
  intro e
  subst e
  exact absurd h (by decide)

lemma pyIsAlpha_ne_cr {c : Char} (h : pyIsAlpha c = true) : c ≠ '\r' := by
  intro e
  subst e
  exact absurd h (by decide)

lemma pyIsAlpha_ne_nul {c : Char} (h : pyIsAlpha c = true) : c ≠ '\x00' := by
  intro e
  subst e
  exact absurd h (by decide)

/-- One parser step neither writes nor re-targets the entry of a letter
that is neither the pending command nor the processed character. -/
lemma statusStep_preserve (L : Char) (st : StatusState) (c : Char)
    (hst : st.command ≠ L) (hc : c ≠ L) :
    (statusStep st c).command ≠ L ∧
      lookupA (chStr L) (statusStep st c).responses
        = lookupA (chStr L) st.responses := by
  simp only [statusStep]
  split_ifs <;>
    refine ⟨?_, ?_⟩ <;>
    first
      | exact hc
      | exact hst
      | rfl
      | exact lookup_dictSet_ne _ _ _ _ (chStr_ne _ _ (Ne.symm hc))
      | exact lookup_dictSet_ne _ _ _ _ (chStr_ne _ _ (Ne.symm hst))

/-- Folding the parser over characters none of which is L preserves both
the entry of L and the fact that L is not the pending command. -/
lemma statusLoop_preserve (L : Char) :
    ∀ (cs : List Char) (st : StatusState), st.command ≠ L → L ∉ cs →
      (cs.foldl statusStep st).command ≠ L ∧
        lookupA (chStr L) (cs.foldl statusStep st).responses
          = lookupA (chStr L) st.responses
  | [], st, hst, _ => ⟨hst, rfl⟩
  | c :: cs, st, hst, hmem => by
      have hc : c ≠ L := fun e => hmem (e ▸ List.mem_cons_self c cs)
      have hstep := statusStep_preserve L st c hst hc
      have hrest := statusLoop_preserve L cs (statusStep st c) hstep.1
        (fun hm => hmem (List.mem_cons_of_mem c hm))
      exact ⟨hrest.1, by rw [List.foldl_cons, hrest.2, hstep.2]⟩

lemma statusStep_in_command_mono (st : StatusState) (c : Char)
    (h : st.in_command = true) : (statusStep st c).in_command = true := by
  simp only [statusStep]
  split_ifs <;> first | rfl | exact h

lemma statusStep_in_command_alpha (st : StatusState) (c : Char)
    (h : pyIsAlpha c = true) : (statusStep st c).in_command = true := by
  by_cases h0 : st.in_command = true
  · exact statusStep_in_command_mono st c h0
  · have h1 : st.in_command = false ∧ pyIsAlpha c = true :=
      ⟨by revert h0; cases st.in_command <;> simp, h⟩
    simp only [statusStep, if_pos h1]
    split_ifs <;> rfl

lemma statusLoop_in_command_mono :
    ∀ (cs : List Char) (st : StatusState), st.in_command = true →
      (cs.foldl statusStep st).in_command = true
  | [], _, h => h
  | c :: cs, st, h =>
      statusLoop_in_command_mono cs (statusStep st c)
        (statusStep_in_command_mono st c h)

/-- After any letter has been processed, the parser is mid-token. -/
lemma statusLoop_in_command (a : Char) (ha : pyIsAlpha a = true) :
    ∀ (cs : List Char) (st : StatusState), a ∈ cs →
      (cs.foldl statusStep st).in_command = true
  | c :: cs, st, hmem => by
      rcases List.mem_cons.mp hmem with he | hm
      · subst he
        exact statusLoop_in_command_mono cs _
          (statusStep_in_command_alpha st a ha)
      · exact statusLoop_in_command a ha cs (statusStep st c) hm

/-- A parser step on a letter while mid-token: flush the pending pair and
start a fresh token for that letter. -/
lemma statusStep_letter (st : StatusState) (L : Char)
    (hin : st.in_command = true) (hL : pyIsAlpha L = true) :
    statusStep st L =
      { responses := dictSet st.responses (chStr st.command) st.value,
        in_command := true, command := L, value := "" } := by
  have h1 : ¬(st.in_command = false ∧ pyIsAlpha L = true) := by
    rw [hin]; simp
  have h2 : ¬(pyIsDigit L = true ∨ L = '.') := by
    rw [pyIsAlpha_not_digit hL]
    simp [pyIsAlpha_ne_dot hL]
  simp [statusStep, hin, h2, pyIsAlpha_ne_cr hL]

/-- A parser step on a letter while not yet mid-token: the letter becomes
the command and is immediately recorded with an empty value. -/
lemma statusStep_letter_first (st : StatusState) (L : Char)
    (hin : st.in_command = false) (hL : pyIsAlpha L = true) :
    statusStep st L =
      { responses := dictSet st.responses (chStr L) "",
        in_command := true, command := L, value := "" } := by
  have h1 : st.in_command = false ∧ pyIsAlpha L = true := ⟨hin, hL⟩
  have h2 : ¬(pyIsDigit L = true ∨ L = '.') := by
    rw [pyIsAlpha_not_digit hL]
    simp [pyIsAlpha_ne_dot hL]
  simp only [statusStep, if_pos h1, if_neg h2,
    if_pos (pyIsAlpha_ne_cr hL)]
  simp

/-- Folding the parser over digit or dot characters while mid-token only
accumulates the value: responses and command are untouched. -/
lemma statusLoop_digits :
    ∀ (v : List Char) (st : StatusState),
      (∀ c ∈ v, pyIsDigit c = true ∨ c = '.') → st.in_command = true →
      (v.foldl statusStep st).responses = st.responses ∧
        (v.foldl statusStep st).command = st.command
  | [], _, _, _ => ⟨rfl, rfl⟩
  | c :: v, st, hv, hin => by
      have hc := hv c (List.mem_cons_self c v)
      have h1 : ¬(st.in_command = false ∧ pyIsAlpha c = true) := by
        rw [hin]; simp
      have hstep : statusStep st c = { st with value := st.value.push c } := by
        simp only [statusStep, if_neg h1, if_pos hin, if_pos hc]
      have hrest := statusLoop_digits v (statusStep st c)
        (fun d hd => hv d (List.mem_cons_of_mem c hd)) (by rw [hstep]; exact hin)
      rw [List.foldl_cons, hrest.1, hrest.2, hstep]
      exact ⟨rfl, rfl⟩

lemma lookupA_mem {α β : Type} [DecidableEq α] {k : α} {v : β} :
    ∀ {d : List (α × β)}, lookupA k d = some v → (k, v) ∈ d
  | p :: t, h => by
      by_cases hp : p.1 = k
      · simp only [lookupA, if_pos hp] at h
        have hpv : p = (k, v) := by
          cases p
          cases h
          cases hp
          rfl
        rw [← hpv]
        exact List.mem_cons_self p t
      · simp only [lookupA, if_neg hp] at h
        exact List.mem_cons_of_mem p (lookupA_mem h)

lemma convEntry_error {p : String × String} {e : PyErr}
    (h : convEntry p = .error e) : e = .valueError := by
  unfold convEntry at h
  split_ifs at h <;> split at h <;> simp_all

lemma pyInt_ne_ok {p : String × String} (h1 : p.1 ≠ "Version")
    (h2 : pyInt p.2 = none) : convEntry p = .error .valueError := by
  unfold convEntry
  rw [if_neg h1, h2]

lemma convertAll_fail :
    ∀ {d : List (String × String)} {k v : String},
      (k, v) ∈ d → k ≠ "Version" → pyInt v = none →
      convertAll d = .error .valueError
  | p :: t, k, v, hmem, hk, hv => by
      rcases List.mem_cons.mp hmem with he | hm
      · subst he
        rw [convertAll, pyInt_ne_ok hk hv]
      · rw [convertAll]
        rcases hce : convEntry p with e | q
        · rw [convEntry_error hce]
        · rw [convertAll_fail hm hk hv]

/-- Adjacent letters in the parsed text: the first letter of the pair is
recorded with an empty value when the second is reached, and stays that
way when it never occurs later. -/
lemma statusLoop_pair_empty (s1 s2 : List Char) (L1 L2 : Char)
    (st0 : StatusState) (hL1 : pyIsAlpha L1 = true)
    (hL2 : pyIsAlpha L2 = true) (hne : L1 ≠ L2) (hs2 : L1 ∉ s2) :
    lookupA (chStr L1)
      ((s1 ++ L1 :: L2 :: s2).foldl statusStep st0).responses = some "" := by
  rw [List.foldl_append]
  have hA : ∃ r, statusStep (s1.foldl statusStep st0) L1 =
      { responses := r, in_command := true, command := L1, value := "" } := by
    cases hin : (s1.foldl statusStep st0).in_command
    · exact ⟨_, statusStep_letter_first _ L1 hin hL1⟩
    · exact ⟨_, statusStep_letter _ L1 hin hL1⟩
  rcases hA with ⟨r, hA⟩
  rw [List.foldl_cons, List.foldl_cons, hA, statusStep_letter _ L2 rfl hL2]
  have hB := statusLoop_preserve L1 s2
    { responses := dictSet r (chStr L1) "", in_command := true,
      command := L2, value := "" } (Ne.symm hne) hs2
  rw [hB.2]
  exact lookup_dictSet_self r (chStr L1) ""

/-- Adjacent letters after the prefix: the first letter of the pair ends
up bound to the empty value string. -/
lemma parse_status_pair_empty (pre s1 s2 : List Char) (L1 L2 : Char)
    (hpre : pre.length = 3) (hL1 : pyIsAlpha L1 = true)
    (hL2 : pyIsAlpha L2 = true) (hne : L1 ≠ L2) (hs2 : L1 ∉ s2) :
    lookupA (chStr L1) (parse_status ⟨pre ++ s1 ++ L1 :: L2 :: s2⟩)
      = some "" := by
  unfold parse_status
  simp only [data_mk]
  rw [List.append_assoc, ← hpre, List.drop_left]
  exact statusLoop_pair_empty s1 s2 L1 L2 _ hL1 hL2 hne hs2

/-- A trailing letter-plus-digits token is never recorded when some
earlier letter already opened a token and the trailing letter occurs
nowhere earlier. -/
lemma statusLoop_last_dropped (s1 : List Char) (L : Char) (v : List Char)
    (st0 : StatusState) (ha : ∃ a ∈ s1, pyIsAlpha a = true)
    (hL : pyIsAlpha L = true) (hs1 : L ∉ s1)
    (hv : ∀ c ∈ v, pyIsDigit c = true ∨ c = '.')
    (hcmd0 : st0.command ≠ L)
    (hlook0 : lookupA (chStr L) st0.responses = none) :
    lookupA (chStr L) ((s1 ++ L :: v).foldl statusStep st0).responses
      = none := by
  rw [List.foldl_append]
  rcases ha with ⟨a, hamem, haalpha⟩
  have h1 := statusLoop_preserve L s1 st0 hcmd0 hs1
  have hin1 : (s1.foldl statusStep st0).in_command = true :=
    statusLoop_in_command a haalpha s1 st0 hamem
  rw [List.foldl_cons, statusStep_letter _ L hin1 hL]
  have h2 := statusLoop_digits v
    { responses := dictSet (s1.foldl statusStep st0).responses
        (chStr (s1.foldl statusStep st0).command)
        (s1.foldl statusStep st0).value,
      in_command := true, command := L, value := "" } hv rfl
  rw [h2.1]
  rw [lookup_dictSet_ne _ _ _ _ (chStr_ne _ _ (Ne.symm h1.1))]
  rw [h1.2]
  exact hlook0

/-- The trailing token of the reply is never recorded once an earlier
letter opened a token, provided its letter is new. -/
lemma parse_status_last_dropped (pre s1 : List Char) (L : Char)
    (v : List Char) (hpre : pre.length = 3)
    (ha : ∃ a ∈ s1, pyIsAlpha a = true) (hL : pyIsAlpha L = true)
    (hs1 : L ∉ s1) (hv : ∀ c ∈ v, pyIsDigit c = true ∨ c = '.') :
    lookupA (chStr L) (parse_status ⟨pre ++ s1 ++ L :: v⟩) = none := by
  unfold parse_status
  simp only [data_mk]
  rw [List.append_assoc, ← hpre, List.drop_left]
  refine statusLoop_last_dropped s1 L v _ ha hL hs1 hv
    (Ne.symm (pyIsAlpha_ne_nul hL)) ?_
  simp only [lookupA, if_neg (fun e : ("Version" : String) = chStr L =>
    chStr_ne_Version L e.symm)]

lemma digitChar_range : ∀ m, m < 10 →
    48 ≤ (Nat.digitChar m).toNat ∧ (Nat.digitChar m).toNat ≤ 57 := by decide

lemma natDigitsAux_range :
    ∀ (fuel n : Nat) (c : Char), c ∈ natDigitsAux fuel n →
      48 ≤ c.toNat ∧ c.toNat ≤ 57
  | 0, _, _, h => absurd h (List.not_mem_nil _)
  | fuel + 1, n, c, h => by
      rw [natDigitsAux] at h
      split at h
      · rcases List.mem_singleton.mp h with he
        subst he
        exact digitChar_range n (by omega)
      · rcases List.mem_append.mp h with hm | hm
        · exact natDigitsAux_range fuel (n / 10) c hm
        · rcases List.mem_singleton.mp hm with he
          subst he
          exact digitChar_range (n % 10) (Nat.mod_lt n (by omega))

lemma natDigitsAux_ne_nil (fuel n : Nat) (h : 0 < fuel) :
    natDigitsAux fuel n ≠ [] := by
  cases fuel with
  | zero => omega
  | succ f =>
      rw [natDigitsAux]
      split
      · simp
      · simp

lemma pyStrL_range (i : Int) (c : Char) (h : c ∈ pyStrL i) :
    c = '-' ∨ (48 ≤ c.toNat ∧ c.toNat ≤ 57) := by
  unfold pyStrL at h
  split at h
  · rcases List.mem_cons.mp h with he | hm
    · exact Or.inl he
    · exact Or.inr (natDigitsAux_range _ _ c hm)
  · exact Or.inr (natDigitsAux_range _ _ c h)

lemma pyStrL_no_space (i : Int) : ' ' ∉ pyStrL i := by
  intro h
  rcases pyStrL_range i ' ' h with he | hr
  · exact absurd he (by decide)
  · revert hr
    decide

lemma pyStrL_ne_nil (i : Int) : pyStrL i ≠ [] := by
  unfold pyStrL
  split
  · simp
  · exact natDigitsAux_ne_nil _ _ (by omega)

lemma getLast_mem_of_ne_nil :
    ∀ (l : List Char), l ≠ [] → ∃ d, l.getLast? = some d ∧ d ∈ l
  | [c], _ => ⟨c, rfl, List.mem_singleton.mpr rfl⟩
  | c :: c2 :: t, _ => by
      rcases getLast_mem_of_ne_nil (c2 :: t) (by simp) with ⟨d, hd, hdm⟩
      exact ⟨d, by rw [List.getLast?_cons_cons]; exact hd,
        List.mem_cons_of_mem c hdm⟩

lemma splitGo_no_space :
    ∀ (a : List Char), (∀ c ∈ a, isPySpace c = false) →
      ∀ (rest acc : List Char),
        splitGo (a ++ rest) acc = splitGo rest (a.reverse ++ acc)
  | [], _, rest, acc => by simp
  | c :: a, h, rest, acc => by
      have hc : isPySpace c = false := h c (List.mem_cons_self c a)
      rw [List.cons_append, splitGo, if_neg (by rw [hc]; simp)]
      rw [splitGo_no_space a (fun d hd => h d (List.mem_cons_of_mem c hd))
        rest (c :: acc)]
      simp

lemma splitWS_single (b : List Char) (hb : b ≠ [])
    (hnb : ∀ c ∈ b, isPySpace c = false) : splitWS b = [b] := by
  unfold splitWS
  have h := splitGo_no_space b hnb [] []
  rw [List.append_nil] at h
  rw [h, splitGo, if_neg (by simp [hb]), List.append_nil, List.reverse_reverse]

lemma splitWS_pair (a b : List Char) (ha : a ≠ []) (hb : b ≠ [])
    (hna : ∀ c ∈ a, isPySpace c = false)
    (hnb : ∀ c ∈ b, isPySpace c = false) :
    splitWS (a ++ ' ' :: b) = [a, b] := by
  unfold splitWS
  rw [splitGo_no_space a hna (' ' :: b) [], List.append_nil, splitGo,
    if_pos (by decide : isPySpace ' ' = true), if_neg (by simp [ha]),
    List.reverse_reverse]
  have h := splitGo_no_space b hnb [] []
  rw [List.append_nil] at h
  rw [h, splitGo, if_neg (by simp [hb])]
  simp

lemma joinX_pair (a b : List Char) (ha : a ≠ []) (hb : b ≠ []) :
    joinX [a, b] = a ++ 'X' :: (b ++ ['X']) := by
  simp only [joinX, List.foldl_cons, List.foldl_nil, if_neg ha, if_neg hb,
    List.nil_append]
  simp

/-- The Write command assembly on a space-separated pair of mnemonics. -/
lemma commandChars_space_pair (a b : List Char) (ha : a ≠ []) (hb : b ≠ [])
    (hna : ∀ c ∈ a, isPySpace c = false)
    (hnb : ∀ c ∈ b, isPySpace c = false) :
    commandChars (.str ⟨a ++ ' ' :: b⟩) = .ok (a ++ 'X' :: (b ++ ['X'])) := by
  unfold commandChars
  simp only [data_mk]
  rw [if_pos (by simp : ' ' ∈ a ++ ' ' :: b),
    splitWS_pair a b ha hb hna hnb, joinX_pair a b ha hb]

/-- The Write command assembly on a space-free string whose final
character is not X: the execute terminator is appended. -/
lemma commandChars_append_X (cl : List Char) (d : Char)
    (hsp : ' ' ∉ cl) (hlast : cl.getLast? = some d) (hd : d ≠ 'X')
    (hlen : 2 ≤ cl.length) :
    commandChars (.str ⟨cl⟩) = .ok (cl ++ ['X']) := by
  unfold commandChars
  simp only [data_mk]
  rw [if_neg hsp]
  split
  case h_1 heq => rw [hlast] at heq; cases heq
  case h_2 c1 heq =>
      rw [hlast] at heq
      cases heq
      rw [if_neg hd, dif_neg (by omega : ¬cl.length < 2)]
      split
      case isTrue h => exact absurd h (by simp)
      case isFalse h => rfl

/-- The status-of-bit query frame: U, the bit number, then the appended
execute terminator. -/
lemma commandChars_U (bit : Int) :
    commandChars (.str ⟨'U' :: pyStrL bit⟩)
      = .ok (('U' :: pyStrL bit) ++ ['X']) := by
  have hne := pyStrL_ne_nil bit
  rcases getLast_mem_of_ne_nil ('U' :: pyStrL bit) (by simp) with ⟨d, hgl, hdm⟩
  refine commandChars_append_X _ d ?_ hgl ?_ ?_
  · intro h
    rcases List.mem_cons.mp h with he | hm
    · exact absurd he (by decide)
    · exact pyStrL_no_space bit hm
  · rcases List.mem_cons.mp hdm with he | hm
    · subst he; decide
    · rcases pyStrL_range bit d hm with he | hr
      · subst he; decide
      · intro e
        subst e
        revert hr
        decide
  · have := List.length_pos.mpr hne
    simp only [List.length_cons]
    omega

/-- A successful one-bit status query returns the truthiness of the
stripped response string. -/
lemma get_bit_state_write_ok (t : String → Except String Unit)
    (rt : Except String String) (bit : Int)
    (h : t ⟨'U' :: (pyStrL bit ++ ['X', '\r'])⟩ = .ok ()) :
    get_bit_state t rt bit = .ok (!(pyStrip (Read rt)).isEmpty) := by
  have h2 : t ⟨(('U' :: pyStrL bit) ++ ['X']) ++ ['\r']⟩ = .ok () := by
    rw [show (('U' :: pyStrL bit) ++ ['X']) ++ ['\r']
      = 'U' :: (pyStrL bit ++ ['X', '\r']) from by simp]
    exact h
  simp only [get_bit_state, Ask, Write, commandChars_U bit]
  rw [h2]
  rfl

/-- A one-bit status query whose transmit step fails returns false. -/
lemma get_bit_state_write_fail (t : String → Except String Unit)
    (rt : Except String String) (bit : Int) (m : String)
    (h : t ⟨'U' :: (pyStrL bit ++ ['X', '\r'])⟩ = .error m) :
    get_bit_state t rt bit = .ok false := by
  have h2 : t ⟨(('U' :: pyStrL bit) ++ ['X']) ++ ['\r']⟩ = .error m := by
    rw [show (('U' :: pyStrL bit) ++ ['X']) ++ ['\r']
      = 'U' :: (pyStrL bit ++ ['X', '\r']) from by simp]
    exact h
  simp only [get_bit_state, Ask, Write, commandChars_U bit]
  rw [h2]
  rfl

/-- A one-bit status query never raises. -/
lemma get_bit_state_ok (t : String → Except String Unit)
    (rt : Except String String) (bit : Int) :
    ∃ b, get_bit_state t rt bit = .ok b := by
  cases ht : t ⟨'U' :: (pyStrL bit ++ ['X', '\r'])⟩ with
  | error m => exact ⟨false, get_bit_state_write_fail t rt bit m ht⟩
  | ok u =>
      cases u
      exact ⟨_, get_bit_state_write_ok t rt bit ht⟩

/-- Mask out eight bits at offset k, then shift them down: this is the
byte of v at that offset. -/
lemma mask_shift (v k : Nat) : (v &&& (255 <<< k)) >>> k = v / 2 ^ k % 256 := by
  have h256 : (256 : Nat) = 2 ^ 8 := by norm_num
  rw [← Nat.shiftRight_eq_div_pow, h256]
  apply Nat.eq_of_testBit_eq
  intro i
  rw [Nat.testBit_mod_two_pow, Nat.testBit_shiftRight, Nat.testBit_shiftRight,
    Nat.testBit_and, Nat.testBit_shiftLeft]
  have h2 : k + i - k = i := by omega
  rw [h2, decide_eq_true (Nat.le_add_right k i)]
  rw [show (255 : Nat) = 2 ^ 8 - 1 from by norm_num,
    Nat.testBit_two_pow_sub_one]
  cases hv : v.testBit (k + i) <;> cases hi : decide (i < 8) <;> simp

lemma portsOf_lookup (v : Nat) :
    ∀ p, 1 ≤ p → p ≤ 5 →
      lookupA p (portsOf v) = some (v / 2 ^ (8 * (p - 1)) % 256) := by
  intro p h1 h5
  have e0 := mask_shift v 0
  have e8 := mask_shift v 8
  have e16 := mask_shift v 16
  have e24 := mask_shift v 24
  have e32 := mask_shift v 32
  simp only [Nat.shiftLeft_eq, Nat.shiftRight_eq_div_pow] at e0 e8 e16 e24 e32
  norm_num at e0 e8 e16 e24 e32
  interval_cases p <;>
    simp [portsOf, List.range_succ, lookupA, Nat.shiftRight_eq_div_pow,
      e0, e8, e16, e24, e32]

lemma not_space_of_toNat {c : Char} (h1 : 44 ≤ c.toNat) (h2 : c.toNat ≤ 57) :
    isPySpace c = false := by
  simp only [isPySpace, Bool.or_eq_false_iff, beq_eq_false_iff_ne]
  repeat' apply And.intro
  all_goals intro e; subst e; exact absurd h1 (by decide)

lemma pyStrL_not_space (i : Int) : ∀ c ∈ pyStrL i, isPySpace c = false := by
  intro c hm
  rcases pyStrL_range i c hm with he | hr
  · subst he; decide
  · exact not_space_of_toNat (by omega) hr.2

/-- The port-select frame of write_port. -/
lemma frame_P_F3 (port : Int) :
    frame (.str ⟨'P' :: (pyStrL port ++ [' ', 'F', '3'])⟩)
      = .ok ⟨'P' :: (pyStrL port ++ ['X', 'F', '3', 'X', '\r'])⟩ := by
  have hcc := commandChars_space_pair ('P' :: pyStrL port) ['F', '3']
    (by simp) (by simp)
    (by
      intro c hc
      rcases List.mem_cons.mp hc with he | hm
      · subst he; decide
      · exact pyStrL_not_space port c hm)
    (by decide)
  rw [show ('P' :: pyStrL port) ++ ' ' :: ['F', '3']
    = 'P' :: (pyStrL port ++ [' ', 'F', '3']) from by simp] at hcc
  unfold frame
  rw [hcc]
  show Except.ok (⟨_⟩ : String) = _
  refine congrArg Except.ok (congrArg String.mk ?_)
  simp

/-- The data-write frame of write_port. -/
lemma frame_D_Z (value : Int) :
    frame (.str ⟨'D' :: (pyStrL value ++ ['Z'])⟩)
      = .ok ⟨'D' :: (pyStrL value ++ ['Z', 'X', '\r'])⟩ := by
  have hlen := List.length_pos.mpr (pyStrL_ne_nil value)
  have hcc := commandChars_append_X ('D' :: (pyStrL value ++ ['Z'])) 'Z'
    (by
      intro hmem
      rcases List.mem_cons.mp hmem with he | hm
      · exact absurd he (by decide)
      · rcases List.mem_append.mp hm with hm2 | hm2
        · exact absurd (pyStrL_not_space value ' ' hm2) (by decide)
        · exact absurd (List.mem_singleton.mp hm2) (by decide))
    (by
      rw [show 'D' :: (pyStrL value ++ ['Z'])
        = ('D' :: pyStrL value) ++ ['Z'] from by simp]
      exact List.getLast?_concat _)
    (by decide)
    (by simp)
  unfold frame
  rw [hcc]
  show Except.ok (⟨_⟩ : String) = _
  refine congrArg Except.ok (congrArg String.mk ?_)
  simp

/-- The restore frame of write_port. -/
lemma frame_P0F0 : frame (.str "P0 F0") = .ok "P0XF0X\r" := by decide

/-- Any exception escaping Write was raised during command assembly,
before the transport was touched. -/
lemma Write_error_eq (t : String → Except String Unit) (inp : CmdInput)
    (e : PyErr) (h : Write t inp = .error e) : commandChars inp = .error e := by
  cases hc : commandChars inp with
  | error e2 =>
      simp only [Write, hc] at h
      cases h
      rfl
  | ok cs =>
      simp only [Write, hc] at h
      cases ht : t ⟨cs ++ ['\r']⟩ <;> rw [ht] at h <;> cases h

/-- Any exception escaping Ask was raised by Write. -/
lemma Ask_error_eq (t : String → Except String Unit)
    (rt : Except String String) (inp : CmdInput) (e : PyErr)
    (h : Ask t rt inp = .error e) : Write t inp = .error e := by
  cases hw : Write t inp with
  | error e2 =>
      unfold Ask at h
      rw [hw] at h
      cases h
      rfl
  | ok b =>
      unfold Ask at h
      rw [hw] at h
      cases b <;> cases h

lemma pyInt_empty : pyInt "" = none := by decide

lemma pyFloat_123 : pyFloat "123" = some 123 := by
  have h : pyFloat "123" = some ((1 : ℚ) * ((123 : Nat) : ℚ)) := rfl
  rw [h]
  norm_num

lemma convEntry_Version_123 :
    convEntry ("Version", "123") = .ok ("Version", PyNum.float 123) := by
  unfold convEntry
  rw [if_pos rfl, pyFloat_123]

/-- Full evaluation of get_status on the reply 123C1D255U0 with a
healthy transport. -/
lemma get_status_eval_C1 :
    get_status (fun _ => .ok ()) (.ok "123C1D255U0")
      = .ok [("Version", PyNum.float 123), ("C", PyNum.int 1),
             ("D", PyNum.int 255)] := by
  have hAsk : Ask (fun _ => .ok ()) (.ok "123C1D255U0") (.str "U0")
      = .ok (some "123C1D255U0") := by decide
  have hp : parse_status "123C1D255U0"
      = [("Version", "123"), ("C", "1"), ("D", "255")] := by decide
  have hC : convEntry ("C", "1") = .ok ("C", PyNum.int 1) := by decide
  have hD : convEntry ("D", "255") = .ok ("D", PyNum.int 255) := by decide
  have hsr : status_result "123C1D255U0"
      = .ok [("Version", PyNum.float 123), ("C", PyNum.int 1),
             ("D", PyNum.int 255)] := by
    unfold status_result
    rw [hp]
    simp only [convertAll, convEntry_Version_123, hC, hD]
  simp only [get_status, hAsk, hsr]

/-! Claim theorems. -/

/-- Claim C1, counterexample: on the reply 123C1D255U0 the driver
returns Version 123.0 (not 1.23) and drops the final U token entirely, so
the claimed mapping with Version 1.23 and a U entry is wrong. -/
theorem C1_counterexample :
    get_status (fun _ => .ok ()) (.ok "123C1D255U0")
      = .ok [("Version", PyNum.float 123), ("C", PyNum.int 1),
             ("D", PyNum.int 255)] ∧
    lookupA "U" [("Version", PyNum.float 123), ("C", PyNum.int 1),
             ("D", PyNum.int 255)] = none ∧
    PyNum.float 123 ≠ PyNum.float 1.23 := by
  refine ⟨get_status_eval_C1, by decide, ?_⟩
  intro h
  injection h with h2
  norm_num at h2

/-- Claim C1, amended: on the reply 123C1D255U0 get_status returns
exactly Version 123.0, C 1, D 255; in general a value run terminated by
end of string is NOT emitted: whenever the trailing token letter follows
some earlier letter and occurs nowhere earlier in the reply body, the
trailing code and value pair is absent from the parsed result. -/
theorem C1_amended :
    (get_status (fun _ => .ok ()) (.ok "123C1D255U0")
      = .ok [("Version", PyNum.float 123), ("C", PyNum.int 1),
             ("D", PyNum.int 255)]) ∧
    (∀ (pre s1 : List Char) (L : Char) (v : List Char),
      pre.length = 3 → (∃ a ∈ s1, pyIsAlpha a = true) →
      pyIsAlpha L = true → L ∉ s1 →
      (∀ c ∈ v, pyIsDigit c = true ∨ c = '.') →
      lookupA (chStr L) (parse_status ⟨pre ++ s1 ++ L :: v⟩) = none) :=
  ⟨get_status_eval_C1, parse_status_last_dropped⟩

/-- Claim C1, witness for the amended statement: in 123C1D255U0 the
trailing token U0 is dropped. -/
theorem C1_witness :
    lookupA (chStr 'U')
      (parse_status ⟨"123".data ++ "C1D255".data ++ 'U' :: "0".data⟩)
      = none :=
  C1_amended.2 "123".data "C1D255".data 'U' "0".data (by decide)
    ⟨'C', by decide, by decide⟩ (by decide) (by decide) (by decide)

/-- Claim C2: the documented list form of Write raises UnboundLocalError
instead of transmitting, while the space-separated and verbatim string
forms both transmit the frame A3XU3XU5X followed by a carriage return. -/
theorem C2_evidence :
    commandChars (.list ["A3", "U3", "U5"]) = .error .unboundLocalError ∧
    frame (.str "A3 U3 U5") = .ok "A3XU3XU5X\r" ∧
    frame (.str "A3XU3XU5X") = .ok "A3XU3XU5X\r" := by decide

/-- Claim C3: transport faults never escape.  A transport write error
makes Write return false; a transport read error makes Read return the
tagged string; any exception escaping Write or Ask already arose during
command assembly, before the transport was invoked, so it is never a
transport fault. -/
theorem C3_transport_contained (inp : CmdInput)
    (t : String → Except String Unit) (rt : Except String String) :
    (∀ cs m, commandChars inp = .ok cs → t ⟨cs ++ ['\r']⟩ = .error m →
      Write t inp = .ok false) ∧
    (∀ m, Read (.error m) = "Error: " ++ m) ∧
    (∀ e, Write t inp = .error e → commandChars inp = .error e) ∧
    (∀ e, Ask t rt inp = .error e → commandChars inp = .error e) := by
  refine ⟨?_, fun m => rfl, Write_error_eq t inp,
    fun e h => Write_error_eq t inp e (Ask_error_eq t rt inp e h)⟩
  intro cs m h1 h2
  simp only [Write, h1, h2]

/-- Claim C3, witness: with a failing transport, Write on U0 returns
false and Read returns the tagged string. -/
theorem C3_witness :
    Write (fun _ => .error "fault") (.str "U0") = .ok false ∧
    Read (.error "fault") = "Error: fault" :=
  ⟨(C3_transport_contained (.str "U0") (fun _ => .error "fault")
      (.error "fault")).1 "U0X".data "fault" (by decide) rfl,
   (C3_transport_contained (.str "U0") (fun _ => .error "fault")
      (.error "fault")).2.1 "fault"⟩

/-- Claim C4: write_port issues exactly three frames, in order: select
the port with the output data format, write the value to the data
register, then restore port 0 with the default format; in particular
write_port 2 170 emits P2XF3X, D170ZX and P0XF0X, each with a trailing
carriage return. -/
theorem C4_write_port :
    (∀ port value : Int,
      write_port port value = .ok
        [⟨'P' :: (pyStrL port ++ ['X', 'F', '3', 'X', '\r'])⟩,
         ⟨'D' :: (pyStrL value ++ ['Z', 'X', '\r'])⟩,
         "P0XF0X\r"]) ∧
    write_port 2 170 = .ok ["P2XF3X\r", "D170ZX\r", "P0XF0X\r"] := by
  constructor
  · intro port value
    simp only [write_port, frame_P_F3, frame_D_Z, frame_P0F0]
    rfl
  · decide

/-- Claim C5: for every configuration index 0 to 5 and every port 1 to
5 the direction table holds a boolean which is true exactly when the
port number is at most the configuration index. -/
theorem C5_ports_out (k p : Nat) (hk : k ≤ 5) (hp1 : 1 ≤ p) (hp5 : p ≤ 5) :
    (lookupA k ports_out).bind (fun row => lookupA p row)
      = some (decide (p ≤ k)) := by
  interval_cases k <;> interval_cases p <;> decide

/-- Claim C5, witness: configuration 2 marks port 3 as input. -/
theorem C5_witness :
    (lookupA 2 ports_out).bind (fun row => lookupA 3 row)
      = some (decide (3 ≤ 2)) :=
  C5_ports_out 2 3 (by decide) (by decide) (by decide)

/-- Claim C6: with formatted false and groups 0, get_all_bits returns
the integer value of the hex reply; with groups positive it returns the
per-port map whose entry for port p is the p-th 8-bit byte, port 1
being the low 8 bits. -/
theorem C6_get_all_bits (reply : String) (v : Nat)
    (h : pyHex (pyStrip reply).data = some v) :
    get_all_bits reply false 0 = .ok (.raw v) ∧
    (∀ g, g ≠ 0 → get_all_bits reply false g = .ok (.ports (portsOf v))) ∧
    (∀ p, 1 ≤ p → p ≤ 5 →
      lookupA p (portsOf v) = some (v / 2 ^ (8 * (p - 1)) % 256)) ∧
    lookupA 1 (portsOf v) = some (v % 256) := by
  refine ⟨?_, ?_, portsOf_lookup v, ?_⟩
  · simp [get_all_bits, h]
  · intro g hg
    simp [get_all_bits, h, hg]
  · have h1 := portsOf_lookup v 1 (by norm_num) (by norm_num)
    simpa using h1

/-- Claim C6, witness: the reply 00000000FF decodes to 255, returned raw
when ungrouped, and port 1 receives the low byte 255. -/
theorem C6_witness :
    pyHex (pyStrip "00000000FF").data = some 255 ∧
    get_all_bits "00000000FF" false 0 = .ok (.raw 255) ∧
    lookupA 1 (portsOf 255) = some (255 % 256) :=
  ⟨by decide, (C6_get_all_bits "00000000FF" 255 (by decide)).1,
   (C6_get_all_bits "00000000FF" 255 (by decide)).2.2.2⟩

/-- Claim C7: pulse_bit never completes the documented sequence: after
the initial state query it always raises NameError inside set_bit or
clr_bit, whose helper names are undefined, for every transport, starting
state, bit and direction. -/
theorem C7_pulse_bit (t : String → Except String Unit)
    (rt : Except String String) (bit : Int) (low : Bool) :
    pulse_bit t rt bit low = .error .nameError := by
  obtain ⟨b, hb⟩ := get_bit_state_ok t rt bit
  cases low <;> cases b <;> (simp only [pulse_bit, hb]; rfl)

/-- Claim C8: a space-free string already ending in X passes through
with one carriage return appended, but a string ending in X plus a
carriage return is not recognised: the driver appends another X and
transmits A3X, carriage return, X, carriage return. -/
theorem C8_evidence :
    frame (.str "A3X") = .ok "A3X\r" ∧
    frame (.str "A3X\r") = .ok "A3X\rX\r" := by decide

/-- Claim C9, counterexample: the reply 123CD1C2U3 contains the adjacent
letters C and D, yet get_status raises nothing: the later C token
overwrites the empty value, so every conversion succeeds. -/
theorem C9_counterexample :
    get_status (fun _ => .ok ()) (.ok "123CD1C2U3")
      = .ok [("Version", PyNum.float 123), ("C", PyNum.int 2),
             ("D", PyNum.int 1)] := by
  have hAsk : Ask (fun _ => .ok ()) (.ok "123CD1C2U3") (.str "U0")
      = .ok (some "123CD1C2U3") := by decide
  have hp : parse_status "123CD1C2U3"
      = [("Version", "123"), ("C", "2"), ("D", "1")] := by decide
  have hC : convEntry ("C", "2") = .ok ("C", PyNum.int 2) := by decide
  have hD : convEntry ("D", "1") = .ok ("D", PyNum.int 1) := by decide
  have hsr : status_result "123CD1C2U3"
      = .ok [("Version", PyNum.float 123), ("C", PyNum.int 2),
             ("D", PyNum.int 1)] := by
    unfold status_result
    rw [hp]
    simp only [convertAll, convEntry_Version_123, hC, hD]
  simp only [get_status, hAsk, hsr]

/-- Claim C9, amended: parsing plus conversion raises ValueError
whenever the reply after the three-character prefix contains a letter
immediately followed by a different letter and the first letter of the
pair occurs nowhere later: its value string stays empty and the int
conversion of the empty string fails. -/
theorem C9_amended (pre s1 s2 : List Char) (L1 L2 : Char)
    (hpre : pre.length = 3) (hL1 : pyIsAlpha L1 = true)
    (hL2 : pyIsAlpha L2 = true) (hne : L1 ≠ L2) (hs2 : L1 ∉ s2) :
    status_result ⟨pre ++ s1 ++ L1 :: L2 :: s2⟩ = .error .valueError := by
  have hl := parse_status_pair_empty pre s1 s2 L1 L2 hpre hL1 hL2 hne hs2
  exact convertAll_fail (lookupA_mem hl) (chStr_ne_Version L1) pyInt_empty

/-- Claim C9, witness for the amended statement: the reply 123CD1U2
raises ValueError. -/
theorem C9_witness :
    status_result ⟨"123".data ++ [] ++ 'C' :: 'D' :: "1U2".data⟩
      = .error .valueError :=
  C9_amended "123".data [] "1U2".data 'C' 'D' (by decide) (by decide)
    (by decide) (by decide) (by decide)

/-- Claim C10: get_bit_state converts the response string itself with
bool(): on a successful send it returns the nonemptiness of the stripped
response, so any nonempty text, including the clear-bit response 0,
yields true; when the send fails it returns false. -/
theorem C10_get_bit_state (t : String → Except String Unit)
    (rt : Except String String) (bit : Int) :
    (t ⟨'U' :: (pyStrL bit ++ ['X', '\r'])⟩ = .ok () →
      get_bit_state t rt bit = .ok (!(pyStrip (Read rt)).isEmpty)) ∧
    (∀ m, t ⟨'U' :: (pyStrL bit ++ ['X', '\r'])⟩ = .error m →
      get_bit_state t rt bit = .ok false) :=
  ⟨get_bit_state_write_ok t rt bit,
   fun m h => get_bit_state_write_fail t rt bit m h⟩

/-- Claim C10, witness: a successful query answered by the string 0
returns true. -/
theorem C10_witness :
    get_bit_state (fun _ => .ok ()) (.ok "0") 7 = .ok true :=
  (C10_get_bit_state (fun _ => .ok ()) (.ok "0") 7).1 rfl

end IOtech
